import Mathlib

/-!
Verification development for the SignalLayerOS lead-enrichment pipeline.

The definitions below are a shallow embedding of the pipeline code:

* `server/services/dataforseoService.ts` — listing discovery (`pullBusinessListings`,
  `extractDomain`);
* `server/services/prospeoService.ts` — contact enrichment (`findEmailsByDomain`,
  `seniorityRank`, run-summary counters);
* the email-verification adapter (`verifyEmail`, `verifyEmails`);
* the CSV assembly (`generateCsv`, `escapeField`);
* `server/services/jobManager.ts` — the job orchestrator (`canStart`,
  `getCooldownRemaining`, `clearData`, `runPipeline`);
* the `POST /api/google-market-pull` route of `server/routes.ts`.

Network calls are modelled as oracle functions supplied as explicit arguments
(one outcome per unit of work); JavaScript `Map`/`Set` objects are modelled as
insertion-ordered association lists / first-occurrence-deduplicated lists, and
JavaScript string operations are modelled character-listwise so that every
definition evaluates inside the kernel.  Optional / possibly-`undefined`
JavaScript string fields are modelled as plain strings where `""` plays the
role of the falsy missing value (the code only ever tests them for truthiness).
-/

namespace SignalLayer

/-! ## JavaScript string primitives, modelled on `List Char` -/

/-- Whitespace test used by the model of JavaScript `String.prototype.trim`. -/
def isWsChar (c : Char) : Bool :=
  c = ' ' || c = '\t' || c = '\n' || c = '\r'

/-- Model of JavaScript `trim()`: drop whitespace from both ends. -/
def strTrim (s : String) : String :=
  String.mk (((s.data.dropWhile isWsChar).reverse.dropWhile isWsChar).reverse)

/-- Model of JavaScript `toLowerCase()` (ASCII suffices for this code base). -/
def strLower (s : String) : String :=
  String.mk (s.data.map Char.toLower)

/-- Model of JavaScript `String.prototype.includes` for a single character. -/
def strContainsChar (s : String) (c : Char) : Bool :=
  s.data.contains c

/-- Model of JavaScript `String.prototype.includes` for a substring:
some suffix of `s` has `pat` as a prefix. -/
def containsSub (s pat : String) : Bool :=
  (List.range (s.data.length + 1)).any (fun i => pat.data.isPrefixOf (s.data.drop i))

/-- Model of JavaScript `startsWith "www."` used by `extractDomain`. -/
def stripWwwPrefix (h : String) : String :=
  if ("www.".data).isPrefixOf h.data then String.mk (h.data.drop 4) else h

/-! ## Domain extraction (`extractDomain`, identical copies in
`dataforseoService.ts`, `prospeoService.ts` and the email scraper) -/

/-- Scan for the first `"://"` and return what follows it, as done by the
scheme part of a WHATWG `new URL(url)` parse. -/
def afterSchemeChars : List Char → Option (List Char)
  | [] => none
  | ':' :: '/' :: '/' :: rest => some rest
  | _ :: rest => afterSchemeChars rest

/-- Drop a `userinfo@` prefix from an authority component. -/
def dropUserinfo (cs : List Char) : List Char :=
  if cs.contains '@' then (cs.reverse.takeWhile (fun c => c ≠ '@')).reverse else cs

/-- Drop a `:port` suffix from a host component. -/
def dropPort (cs : List Char) : List Char :=
  cs.takeWhile (fun c => c ≠ ':')

/-- Model of `new URL(url).hostname` for the common `scheme://…` shape: the
authority is what follows `"://"` up to the first `/`, `?` or `#`; userinfo
and port are stripped and the host is lowercased (WHATWG normalization).
`none` models the `URL` constructor throwing. -/
def hostnameOf (url : String) : Option String :=
  match url.data with
  | [] => none
  | c :: _ =>
    if c = ':' then none
    else
      match afterSchemeChars url.data with
      | none => none
      | some rest =>
        let auth := rest.takeWhile (fun c => c ≠ '/' && c ≠ '?' && c ≠ '#')
        let host := dropPort (dropUserinfo auth)
        if host.isEmpty then none else some (String.mk (host.map Char.toLower))

/-- Embedding of `extractDomain`: hostname with a leading `"www."` stripped,
lowercased; on a parse failure the raw URL lowercased (the `catch` branch). -/
def extractDomain (url : String) : String :=
  match hostnameOf url with
  | some h => strLower (stripWwwPrefix h)
  | none => strLower url

/-! ## Listing discovery (`dataforseoService.ts`) -/

/-- Embedding of the `BusinessListing` record. -/
structure BusinessListing where
  businessName : String
  address : String
  city : String
  phone : String
  website : String
  rating : Nat
  reviewsCount : Nat
  sourceQuery : String
deriving DecidableEq, Inhabited

/-- Query construction of `pullBusinessListings`:
`` `${serviceCategory} ${city} ${state === "Michigan" ? "MI" : state}` ``. -/
def queryFor (serviceCategory city state : String) : String :=
  serviceCategory ++ " " ++ city ++ " " ++ (if state = "Michigan" then "MI" else state)

/-- Accumulator of the discovery scan: accepted listings plus the set of
already-accepted normalized domains (`seenWebsites`). -/
structure PullState where
  acc : List BusinessListing
  seen : List String
deriving DecidableEq, Inhabited

/-- Embedding of the inner result loop of `pullBusinessListings`: break once
the cap is reached, skip already-seen domains, skip listings below the review
threshold, otherwise tag with the sub-region as `city` and accept. -/
def acceptListings (minReviews maxResults : Nat) (city : String) :
    List BusinessListing → PullState → PullState
  | [], st => st
  | l :: rest, st =>
    if st.acc.length ≥ maxResults then st
    else
      if st.seen.contains (extractDomain l.website) then
        acceptListings minReviews maxResults city rest st
      else if l.reviewsCount < minReviews then acceptListings minReviews maxResults city rest st
      else
        acceptListings minReviews maxResults city rest
          ⟨st.acc ++ [{ l with city := city }], st.seen ++ [extractDomain l.website]⟩

/-- Embedding of the outer sub-region loop of `pullBusinessListings`.
`searchOf` is the oracle for one `searchGoogleMaps` call per query string
(`none` models the call throwing, which the `catch` logs and skips).  The
`Nat` component counts sub-regions for which a query was issued, an auxiliary
observation used to state the cap-stops-scanning property. -/
def pullAux (searchOf : String → Option (List BusinessListing))
    (serviceCategory state : String) (minReviews maxResults : Nat) :
    List String → PullState → Nat → PullState × Nat
  | [], st, q => (st, q)
  | city :: rest, st, q =>
    if st.acc.length ≥ maxResults then (st, q)
    else
      match searchOf (queryFor serviceCategory city state) with
      | none => pullAux searchOf serviceCategory state minReviews maxResults rest st (q + 1)
      | some listings =>
        pullAux searchOf serviceCategory state minReviews maxResults rest
          (acceptListings minReviews maxResults city listings st) (q + 1)

/-- Embedding of `pullBusinessListings` (second component: number of
sub-regions actually queried). -/
def pullBusinessListings (searchOf : String → Option (List BusinessListing))
    (serviceCategory state : String) (cities : List String)
    (minReviews maxResults : Nat) : List BusinessListing × Nat :=
  let r := pullAux searchOf serviceCategory state minReviews maxResults cities ⟨[], []⟩ 0
  (r.1.acc, r.2)

/-! ## Contact enrichment (`prospeoService.ts`) -/

/-- The `SEARCH_PERSON_LIMIT` constant. -/
def SEARCH_PERSON_LIMIT : Nat := 10

/-- The `ENRICH_PER_BUSINESS_CAP` constant. -/
def ENRICH_PER_BUSINESS_CAP : Nat := 2

/-- The `ROLE_PRIORITY` seniority list. -/
def ROLE_PRIORITY : List String :=
  ["Founder/Owner", "C-Suite", "VP", "Director", "Manager"]

/-- The `role.split("/")[0].toLowerCase()` key of one `ROLE_PRIORITY` entry:
the part before the first `/`, lowercased. -/
def roleKey (role : String) : String :=
  strLower (String.mk (role.data.takeWhile (fun c => c ≠ '/')))

/-- Embedding of `seniorityRank`: the index of the first matching
`ROLE_PRIORITY` key, then the explicit keyword fallbacks, else the list
length (unmatched titles rank last).  `""` models a missing title. -/
def seniorityRank (title : String) : Nat :=
  if title = "" then ROLE_PRIORITY.length
  else
    let lower := strLower title
    match (List.range ROLE_PRIORITY.length).find?
        (fun i => containsSub lower (roleKey (ROLE_PRIORITY.getD i ""))) with
    | some i => i
    | none =>
      if containsSub lower "owner" then 0
      else if containsSub lower "founder" then 0
      else if containsSub lower "ceo" || containsSub lower "cfo" ||
          containsSub lower "coo" || containsSub lower "cto" then 1
      else if containsSub lower "vp" || containsSub lower "vice president" then 2
      else if containsSub lower "director" then 3
      else if containsSub lower "manager" then 4
      else ROLE_PRIORITY.length

/-- Embedding of the `person` part of a `search-person` result; `""` models a
missing (falsy) field. -/
structure Person where
  full_name : String
  first_name : String
  last_name : String
  current_job_title : String
deriving DecidableEq, Inhabited

/-- The candidate name computed in the enrichment loop:
`person.full_name || `…first last….trim()`. -/
def fullNameOf (p : Person) : String :=
  if p.full_name ≠ "" then p.full_name
  else strTrim (p.first_name ++ " " ++ p.last_name)

/-- Seniority rank of a person, as used by the sort comparator. -/
def personRank (p : Person) : Nat :=
  seniorityRank p.current_job_title

/-- Stable insertion of one person into a rank-sorted list (a new element goes
after existing elements of equal rank, matching the stable `Array.sort`). -/
def insertByRank (p : Person) : List Person → List Person
  | [] => [p]
  | q :: rest =>
    if personRank q ≤ personRank p then q :: insertByRank p rest
    else p :: q :: rest

/-- Embedding of `people.sort((a, b) => rank a - rank b)` as a stable sort by
seniority rank. -/
def sortBySeniority (people : List Person) : List Person :=
  people.foldl (fun acc p => insertByRank p acc) []

/-- Outcome of one `enrich-person` call, per candidate position: HTTP failure
(`!response.ok` → continue), thrown exception (caught, skip), API error object
(`NO_MATCH` refunds the estimated credit), or a success body whose `email`
field is `e` (`""` models a missing email, which is not pushed). -/
inductive EnrichOutcome
  | httpError
  | thrown
  | apiError (noMatch : Bool)
  | okBody (e : String)
deriving DecidableEq, Inhabited

/-- Outcome of the `search-person` call: HTTP failure, thrown exception, API
error object, or a success body carrying the candidate list. -/
inductive SearchOutcome
  | httpError
  | thrown
  | apiError (noMatch : Bool)
  | okBody (results : List Person)
deriving DecidableEq, Inhabited

/-- Embedding of the `ProspeoRunSummary` counters. -/
structure RunSummary where
  businessesProcessed : Nat
  contactsFound : Nat
  enrichAttempts : Nat
  verifiedEmailsReturned : Nat
  creditsEstimated : Nat
deriving DecidableEq, Inhabited

/-- A freshly reset run summary (`resetRunSummary`). -/
def emptyRunSummary : RunSummary :=
  ⟨0, 0, 0, 0, 0⟩

/-- Embedding of the `ProspeoResult` record. -/
structure ProspeoResult where
  email : String
  emailStatus : String
  fullName : String
  jobTitle : String
deriving DecidableEq, Inhabited

/-- Number of results one enrichment outcome contributes (a success body with
a nonempty email pushes exactly one result). -/
def foundCount (o : EnrichOutcome) : Nat :=
  match o with
  | .okBody e => if e ≠ "" then 1 else 0
  | _ => 0

/-- Embedding of the candidate loop of `findEmailsByDomain`: break once the
found-result count reaches `ENRICH_PER_BUSINESS_CAP`; skip candidates with no
usable name without counting an attempt; otherwise count an attempt and an
estimated credit, then dispatch on the enrichment outcome for this candidate
position. -/
def findLoop (enrichOf : Nat → EnrichOutcome) :
    List Person → Nat → List ProspeoResult → RunSummary →
    List ProspeoResult × RunSummary
  | [], _, results, s => (results, s)
  | p :: rest, i, results, s =>
    if results.length ≥ ENRICH_PER_BUSINESS_CAP then (results, s)
    else
      let name := fullNameOf p
      if name = "" then findLoop enrichOf rest (i + 1) results s
      else
        let s1 := { s with enrichAttempts := s.enrichAttempts + 1,
                           creditsEstimated := s.creditsEstimated + 1 }
        match enrichOf i with
        | .httpError => findLoop enrichOf rest (i + 1) results s1
        | .thrown => findLoop enrichOf rest (i + 1) results s1
        | .apiError noMatch =>
          let s2 := if noMatch then
              { s1 with creditsEstimated := s1.creditsEstimated - 1 } else s1
          findLoop enrichOf rest (i + 1) results s2
        | .okBody e =>
          if e ≠ "" then
            findLoop enrichOf rest (i + 1)
              (results ++ [⟨strLower e, "verified", name, p.current_job_title⟩])
              { s1 with verifiedEmailsReturned := s1.verifiedEmailsReturned + 1 }
          else findLoop enrichOf rest (i + 1) results s1

/-- Number of candidates the loop enrichment-attempts, defined independently
of the summary bookkeeping: walk the candidate list keeping the running count
`rlen` of results found so far, stop at the cap, skip nameless candidates. -/
def attemptedOn (enrichOf : Nat → EnrichOutcome) :
    List Person → Nat → Nat → Nat
  | [], _, _ => 0
  | p :: rest, i, rlen =>
    if rlen ≥ ENRICH_PER_BUSINESS_CAP then 0
    else if fullNameOf p = "" then attemptedOn enrichOf rest (i + 1) rlen
    else 1 + attemptedOn enrichOf rest (i + 1) (rlen + foundCount (enrichOf i))

/-- Embedding of `findEmailsByDomain`.  A missing `PROSPEO_API_KEY` throws;
otherwise the business counter is bumped, any search failure yields `[]` (the
`catch` / early returns), and a successful search caps the candidate list at
`SEARCH_PERSON_LIMIT`, counts the contacts, sorts by seniority and runs the
enrichment loop. -/
def findEmailsByDomain (hasKey : Bool) (searchOut : SearchOutcome)
    (enrichOf : Nat → EnrichOutcome) (s : RunSummary) :
    Except String (List ProspeoResult × RunSummary) :=
  if hasKey = false then .error "PROSPEO_API_KEY is required"
  else
    let s0 := { s with businessesProcessed := s.businessesProcessed + 1 }
    match searchOut with
    | .httpError => .ok ([], s0)
    | .thrown => .ok ([], s0)
    | .apiError _ => .ok ([], s0)
    | .okBody results =>
      let people := results.take SEARCH_PERSON_LIMIT
      if people.length = 0 then .ok ([], s0)
      else
        let s1 := { s0 with contactsFound := s0.contactsFound + people.length }
        .ok (findLoop enrichOf (sortBySeniority people) 0 [] s1)

/-! ## Email verification adapter -/

/-- JSON body of a successful verification response; `""` models a missing
(falsy) field in `data.result || data.status || "unknown"`. -/
structure VerifyBody where
  result : String
  status : String
deriving DecidableEq, Inhabited

/-- Outcome of the single-email verification fetch: a thrown exception, or a
response with an HTTP status code and (for the `.json()` call) either a parsed
body or `none` when parsing throws. -/
inductive HttpOutcome
  | thrown
  | response (statusCode : Nat) (body : Option VerifyBody)
deriving DecidableEq, Inhabited

/-- Embedding of the `VerificationResult` record. -/
structure VerificationResult where
  email : String
  result : String
  safe : Bool
deriving DecidableEq, Inhabited

/-- Model of `response.ok`: HTTP status in the 200–299 range. -/
def respOk (code : Nat) : Bool :=
  decide (200 ≤ code ∧ code < 300)

/-- The provider statuses treated as safe. -/
def safeStatuses : List String :=
  ["deliverable", "safe", "valid"]

/-- The effective status string: `data.result || data.status || "unknown"`. -/
def effectiveStatus (b : VerifyBody) : String :=
  if b.result ≠ "" then b.result
  else if b.status ≠ "" then b.status
  else "unknown"

/-- Embedding of `verifyEmail`.  A missing `BOUNCEBAN_API_KEY` throws (that
check precedes the `try`); inside the `try`, a thrown fetch or JSON parse is
caught and classified `"error"`, a non-success response is `"timeout"` when
the status code is 408 and `"error"` otherwise, and a success response is
classified by its lowercased effective status string. -/
def verifyEmail (hasKey : Bool) (email : String) (out : HttpOutcome) :
    Except String VerificationResult :=
  if hasKey = false then .error "BOUNCEBAN_API_KEY is required"
  else
    match out with
    | .thrown => .ok ⟨email, "error", false⟩
    | .response code body =>
      if respOk code = false then
        if code = 408 then .ok ⟨email, "timeout", false⟩
        else .ok ⟨email, "error", false⟩
      else
        match body with
        | none => .ok ⟨email, "error", false⟩
        | some b =>
          let rs := strLower (effectiveStatus b)
          .ok ⟨email, rs, rs = "deliverable" || rs = "safe" || rs = "valid"⟩

/-- The verification adapter as called with a configured key (`verifyEmails`
maps it over the email list); the `.error` branch is unreachable there. -/
def verifyEmailRun (email : String) (out : HttpOutcome) : VerificationResult :=
  match verifyEmail true email out with
  | .ok r => r
  | .error _ => ⟨email, "error", false⟩

/-! ## CSV assembly -/

/-- Model of `value.replace(/"/g, '""')`: double every double quote. -/
def escQuotesChars : List Char → List Char
  | [] => []
  | c :: rest => (if c = '"' then ['"', '"'] else [c]) ++ escQuotesChars rest

/-- Does the value contain a comma, a double quote or a newline? -/
def hasSpecial (cs : List Char) : Bool :=
  cs.contains ',' || cs.contains '"' || cs.contains '\n'

/-- Embedding of `escapeField`: the empty (falsy) value becomes `""`; a value
containing a comma, quote or newline is wrapped in double quotes with embedded
quotes doubled; anything else passes through unchanged. -/
def escapeField (value : String) : String :=
  if value.data = [] then String.mk ['"', '"']
  else if hasSpecial value.data then
    String.mk ('"' :: (escQuotesChars value.data ++ ['"']))
  else value

/-- Parser for the quoted-field body of the standard CSV grammar: the content
runs to a lone closing quote, a doubled quote denotes a literal quote, and a
quote followed by anything else (within a single field) is malformed. -/
def parseQuotedChars : List Char → Option (List Char)
  | [] => none
  | c :: rest =>
    if c = '"' then
      match rest with
      | [] => some []
      | c2 :: rest2 =>
        if c2 = '"' then (parseQuotedChars rest2).map (fun cs => '"' :: cs)
        else none
    else (parseQuotedChars rest).map (fun cs => c :: cs)

/-- Parser for one CSV field under the standard grammar: a field starting with
a double quote is a quoted field, otherwise it is bare text that may not
contain a comma, quote or newline. -/
def parseCsvField (s : String) : Option String :=
  match s.data with
  | [] => some ""
  | c :: rest =>
    if c = '"' then (parseQuotedChars rest).map String.mk
    else if hasSpecial (c :: rest) then none else some (String.mk (c :: rest))

/-- Embedding of the `CsvRow` record. -/
structure CsvRow where
  businessName : String
  city : String
  address : String
  phone : String
  website : String
  email : String
  reviews : Nat
  rating : Nat
  sourceQuery : String
deriving DecidableEq, Inhabited

/-- The CSV header fields. -/
def csvHeaders : List String :=
  ["Business Name", "City", "Address", "Phone", "Website", "Email",
   "Reviews", "Rating", "Source Query"]

/-- One data line of the CSV: the escaped fields joined by commas. -/
def csvLineOf (row : CsvRow) : String :=
  String.intercalate ","
    [escapeField row.businessName, escapeField row.city, escapeField row.address,
     escapeField row.phone, escapeField row.website, escapeField row.email,
     toString row.reviews, toString row.rating, escapeField row.sourceQuery]

/-- Embedding of `generateCsv`: start from the joined header line, push one
line per row, join the lines with newlines. -/
def generateCsv (rows : List CsvRow) : String :=
  let csvLines := rows.foldl (fun acc row => acc ++ [csvLineOf row])
    [String.intercalate "," csvHeaders]
  String.intercalate "\n" csvLines

/-- Restatement of the spec's description of the CSV document shape (one
header line plus one line per row, rows joined by newlines), used as the
refinement target for `generateCsv`. -/
def generateCsvSpec (rows : List CsvRow) : String :=
  String.intercalate "\n" (String.intercalate "," csvHeaders :: rows.map csvLineOf)

/-! ## Job orchestrator (`jobManager.ts`) -/

/-- The job lifecycle states. -/
inductive Lifecycle
  | idle
  | running
  | completed
  | error
deriving DecidableEq, Inhabited

/-- The running counters of a `JobStatus`. -/
structure Stats where
  businessesFound : Nat
  websitesFound : Nat
  emailsDiscovered : Nat
  emailsVerified : Nat
deriving DecidableEq, Inhabited

/-- Embedding of the `JobStatus` record. -/
structure JobStatus where
  id : String
  status : Lifecycle
  stage : String
  progress : Nat
  progressTotal : Nat
  message : String
  stats : Stats
  csvData : Option String
  rows : Option (List CsvRow)
  error : Option String
  startedAt : Option String
  completedAt : Option String
deriving DecidableEq, Inhabited

/-- Embedding of `createEmptyJob`. -/
def createEmptyJob : JobStatus :=
  { id := "", status := .idle, stage := "", progress := 0, progressTotal := 0,
    message := "Ready", stats := ⟨0, 0, 0, 0⟩, csvData := none, rows := none,
    error := none, startedAt := none, completedAt := none }

/-- The manager's own mutable state: the current job record and the epoch
timestamp of the last completion (`0` meaning none ever). -/
structure ManagerState where
  currentJob : JobStatus
  lastCompletedAt : Int
deriving DecidableEq, Inhabited

/-- The `COOLDOWN_MS` constant: ten minutes in milliseconds. -/
def COOLDOWN_MS : Int := 10 * 60 * 1000

/-- Embedding of `getCooldownRemaining` at wall-clock time `now`:
`Math.max(0, COOLDOWN_MS - (Date.now() - lastCompletedAt))`, with the `0`
sentinel meaning no job has ever completed. -/
def getCooldownRemaining (m : ManagerState) (now : Int) : Int :=
  if m.lastCompletedAt = 0 then 0
  else max 0 (COOLDOWN_MS - (now - m.lastCompletedAt))

/-- Result of `canStart`. -/
structure CanStartResult where
  ok : Bool
  reason : Option String
deriving DecidableEq, Inhabited

/-- Ceiling division by 60000 of a positive remaining-cooldown value, as in
`Math.ceil(cooldown / 60000)`. -/
def cooldownMinutes (cooldown : Int) : Int :=
  (cooldown + 59999) / 60000

/-- Embedding of `canStart`: refuse while a job is running, refuse while the
cooldown window has not elapsed, otherwise allow. -/
def canStart (m : ManagerState) (now : Int) : CanStartResult :=
  if m.currentJob.status = .running then
    { ok := false, reason := some "A job is already running" }
  else
    let cooldown := getCooldownRemaining m now
    if cooldown > 0 then
      { ok := false,
        reason := some ("Rate limited. Try again in " ++
          toString (cooldownMinutes cooldown) ++ " minute(s)") }
    else { ok := true, reason := none }

/-- Embedding of `clearData`: replace the current job with a fresh empty one
(the last-completion timestamp is a separate field and is not touched). -/
def clearData (m : ManagerState) : ManagerState :=
  { m with currentJob := createEmptyJob }

/-! ## The pipeline (`runPipeline` of `jobManager.ts`) -/

/-- Presence flags for the provider credentials read from the environment. -/
structure EnvFlags where
  dataforseoCreds : Bool
  prospeoKey : Bool
  bouncebanKey : Bool
deriving DecidableEq, Inhabited

/-- Embedding of the `JobInput` record. -/
structure JobInput where
  serviceCategory : String
  state : String
  minReviews : Nat
  maxResults : Nat
  limitOnePerDomain : Bool
deriving DecidableEq, Inhabited

/-- The `MICHIGAN_CITIES` sub-region list (`michiganCities.ts`). -/
def MICHIGAN_CITIES : List String :=
  ["Detroit", "Grand Rapids", "Warren", "Sterling Heights", "Ann Arbor",
   "Lansing", "Flint", "Dearborn", "Livonia", "Troy",
   "Westland", "Farmington Hills", "Kalamazoo", "Wyoming", "Southfield",
   "Rochester Hills", "Taylor", "Pontiac", "St. Clair Shores", "Royal Oak",
   "Novi", "Dearborn Heights", "Battle Creek", "Saginaw", "Kentwood",
   "East Lansing", "Roseville", "Portage", "Midland", "Lincoln Park",
   "Muskegon", "Holland", "Bay City", "Jackson", "Allen Park",
   "Burton", "Southgate", "Madison Heights", "Oak Park", "Eastpointe",
   "Wyandotte", "Mount Pleasant", "Hamtramck", "Romulus", "Inkster",
   "Marquette", "Garden City", "Woodhaven", "Traverse City", "Ferndale",
   "Birmingham", "Clawson", "Berkley", "Harper Woods", "Grosse Pointe",
   "Hazel Park", "Center Line", "Riverview", "Monroe", "Trenton",
   "Norton Shores", "Adrian", "Owosso", "Big Rapids", "Cadillac",
   "Alpena", "Petoskey", "Ludington", "Escanaba", "Manistee",
   "Coldwater", "Ionia", "Tecumseh", "Niles", "Sturgis",
   "Hillsdale", "Dowagiac", "Three Rivers", "Marshall", "Charlotte",
   "Alma", "Mount Clemens", "Flat Rock", "Wixom", "South Lyon",
   "Milan", "Saline", "Chelsea", "Howell", "Brighton",
   "Plymouth", "Northville", "Canton", "Shelby Township", "Macomb",
   "Commerce Township", "West Bloomfield", "Auburn Hills", "Lake Orion", "Oxford",
   "Clarkston", "Waterford", "White Lake", "Highland", "Milford"]

/-- First-occurrence deduplication, modelling iteration over a JavaScript
`Set` built by repeated `add` calls. -/
def dedupList (l : List String) : List String :=
  l.foldl (fun acc e => if acc.contains e then acc else acc ++ [e]) []

/-- Lookup in the insertion-ordered model of the `businessEmails` map;
a missing key reads as `[]` (`businessEmails.get(idx) || []`). -/
def lookupEmails (m : List (Nat × List String)) (i : Nat) : List String :=
  match m.find? (fun p => p.1 == i) with
  | some p => p.2
  | none => []

/-- `Map.set` on the insertion-ordered model: update in place when the key
exists, else append. -/
def mapSet (m : List (Nat × List String)) (k : Nat) (v : List String) :
    List (Nat × List String) :=
  if (m.find? (fun p => p.1 == k)).isSome then
    m.map (fun p => if p.1 == k then (k, v) else p)
  else m ++ [(k, v)]

/-- The scraping stage over listing indices `0 … n-1`: indices whose scrape
produced at least one email are entered into the map (`scrapeOf` is the oracle
for one `scrapeEmailsFromWebsite` call; a thrown scrape is caught and skipped,
indistinguishable from an empty result). -/
def scrapeStage (scrapeOf : Nat → List String) (n : Nat) :
    List (Nat × List String) :=
  (List.range n).filterMap (fun i =>
    let emails := scrapeOf i
    if 0 < emails.length then some (i, emails) else none)

/-- The listings still needing enrichment: those whose index is absent from
the map or mapped to an empty list, paired with their index. -/
def needsEnrichmentOf (listings : List BusinessListing)
    (scraped : List (Nat × List String)) : List (BusinessListing × Nat) :=
  listings.enum.filterMap (fun p =>
    if lookupEmails scraped p.1 = [] then some (p.2, p.1) else none)

/-- The enrichment stage: fold `findEmailsByDomain` (with the key configured)
over the listings needing enrichment, appending found emails under the
listing's index and accumulating the run summary and the count of emails
found.  The `.error` branch mirrors the orchestrator's catch-and-skip. -/
def enrichStage (enrichSearchOf : Nat → SearchOutcome)
    (enrichOf : Nat → Nat → EnrichOutcome)
    (needs : List (BusinessListing × Nat))
    (scraped : List (Nat × List String)) :
    List (Nat × List String) × RunSummary × Nat :=
  needs.foldl (fun acc p =>
    let idx := p.2
    match findEmailsByDomain true (enrichSearchOf idx) (enrichOf idx) acc.2.1 with
    | .ok (results, s) =>
      let found := results.map (fun r => r.email)
      if 0 < found.length then
        (mapSet acc.1 idx (lookupEmails acc.1 idx ++ found), s, acc.2.2 + found.length)
      else (acc.1, s, acc.2.2)
    | .error _ => acc)
    (scraped, emptyRunSummary, 0)

/-- The discovered-unique-email set: every email in the map, trimmed and
lowercased, kept when nonempty and containing `@` and `.`, first-occurrence
deduplicated (the `allEmails` `Set`). -/
def candidateEmailsOf (businessEmails : List (Nat × List String)) : List String :=
  dedupList ((businessEmails.flatMap (fun p => p.2)).filterMap (fun e =>
    let t := strLower (strTrim e)
    if t ≠ "" ∧ strContainsChar t '@' ∧ strContainsChar t '.' then some t else none))

/-- The emails classified safe by mapping the verification adapter over the
candidate list (the `verifiedEmails` `Set` in the active-verification branch). -/
def safeVerifiedOf (emails : List String) (verifyOf : String → HttpOutcome) :
    List String :=
  dedupList (((emails.map (fun e => verifyEmailRun e (verifyOf e))).filter
    (fun r => r.safe)).map (fun r => r.email))

/-- The CSV-row assembly loop: for each listing, keep its emails that are in
the verified set; produce no row when none survive, one row for the first
surviving email when `limitOnePerDomain` is set, else one row per email. -/
def buildCsvRows (listings : List BusinessListing)
    (businessEmails : List (Nat × List String)) (verified : List String)
    (limitOne : Bool) : List CsvRow :=
  listings.enum.flatMap (fun p =>
    let l := p.2
    let emails := lookupEmails businessEmails p.1
    let validEmails := emails.filter (fun e => verified.contains e)
    if validEmails.length = 0 then []
    else
      let emailsToUse := if limitOne then [validEmails.headD ""] else validEmails
      emailsToUse.map (fun email =>
        { businessName := l.businessName, city := l.city, address := l.address,
          phone := l.phone, website := l.website, email := email,
          reviews := l.reviewsCount, rating := l.rating,
          sourceQuery := l.sourceQuery }))

/-- The message of a successfully completed run. -/
def completeMessage (n : Nat) : String :=
  "Complete! " ++ toString n ++ " verified leads ready for download."

/-- The observable outcome of one pipeline run.  `allEmails`,
`verifiedEmails`, `runSummary` and `listings` expose intermediate values the
orchestrator holds in locals, so that properties about them can be stated. -/
structure PipelineResult where
  status : Lifecycle
  message : String
  errorMsg : Option String
  stats : Stats
  csvData : Option String
  rows : Option (List CsvRow)
  allEmails : List String
  verifiedEmails : List String
  runSummary : RunSummary
  listings : List BusinessListing
deriving DecidableEq, Inhabited

/-- The verification-and-CSV tail of `runPipeline` for a nonempty listing
set: build the discovered-unique-email set, verify it when the key is
configured and at least one email was found (otherwise treat every discovered
email as verified), assemble the CSV rows, and fill in the final status. -/
def assembleStage (env : EnvFlags) (input : JobInput)
    (listings : List BusinessListing) (websitesFound scrapeFound : Nat)
    (businessEmails : List (Nat × List String)) (summary : RunSummary)
    (enrichFound : Nat) (verifyOf : String → HttpOutcome) : PipelineResult :=
  let allEmails := candidateEmailsOf businessEmails
  let verifiedEmails :=
    if 0 < allEmails.length ∧ env.bouncebanKey = true then
      safeVerifiedOf allEmails verifyOf
    else allEmails
  let csvRows := buildCsvRows listings businessEmails verifiedEmails
    input.limitOnePerDomain
  { status := .completed,
    message := completeMessage csvRows.length,
    errorMsg := none,
    stats := { businessesFound := listings.length, websitesFound := websitesFound,
               emailsDiscovered := scrapeFound + enrichFound,
               emailsVerified := verifiedEmails.length },
    csvData := some (generateCsv csvRows),
    rows := some csvRows,
    allEmails := allEmails,
    verifiedEmails := verifiedEmails,
    runSummary := summary,
    listings := listings }

/-- Embedding of `runPipeline`: missing DataForSEO credentials abort with the
error state (the top-level catch); otherwise discovery runs over
`MICHIGAN_CITIES`, an empty listing set completes early with no CSV, and
otherwise scraping, optional enrichment, and the verification-and-CSV tail
run in sequence. -/
def runPipeline (env : EnvFlags) (input : JobInput)
    (searchOf : String → Option (List BusinessListing))
    (scrapeOf : Nat → List String)
    (enrichSearchOf : Nat → SearchOutcome)
    (enrichOf : Nat → Nat → EnrichOutcome)
    (verifyOf : String → HttpOutcome) : PipelineResult :=
  if env.dataforseoCreds = false then
    { status := .error, message := "",
      errorMsg := some "DataForSEO credentials not configured. Add DATAFORSEO_LOGIN and DATAFORSEO_PASSWORD secrets.",
      stats := ⟨0, 0, 0, 0⟩, csvData := none, rows := none, allEmails := [],
      verifiedEmails := [], runSummary := emptyRunSummary, listings := [] }
  else
    let listings := (pullBusinessListings searchOf input.serviceCategory
      input.state MICHIGAN_CITIES input.minReviews input.maxResults).1
    let websitesFound := (listings.filter (fun l => l.website != "")).length
    if listings.length = 0 then
      { status := .completed, message := "No businesses found matching criteria",
        errorMsg := none,
        stats := { businessesFound := listings.length, websitesFound := websitesFound,
                   emailsDiscovered := 0, emailsVerified := 0 },
        csvData := none, rows := none, allEmails := [], verifiedEmails := [],
        runSummary := emptyRunSummary, listings := listings }
    else
      let scraped := scrapeStage scrapeOf listings.length
      let scrapeFound := (scraped.map (fun p => p.2.length)).sum
      let needs := needsEnrichmentOf listings scraped
      let enriched :=
        if 0 < needs.length ∧ env.prospeoKey = true then
          enrichStage enrichSearchOf enrichOf needs scraped
        else (scraped, emptyRunSummary, 0)
      assembleStage env input listings websitesFound scrapeFound enriched.1
        enriched.2.1 enriched.2.2 verifyOf

/-! ## The start-job route (`POST /api/google-market-pull`, `routes.ts`) -/

/-- The request body the client sends (`part_005` of the UI): it includes the
`limitOnePerDomain` switch. -/
structure StartBody where
  serviceCategory : String
  state : String
  minReviews : Nat
  maxResults : Nat
  limitOnePerDomain : Bool
deriving DecidableEq, Inhabited

/-- The route's zod schema parses only `serviceCategory`, `state`,
`minReviews` and `maxResults`; unknown keys are stripped, so the object handed
to `startJob` has no `limitOnePerDomain` property and `runPipeline` reads the
flag as `undefined`, i.e. falsy. -/
def parsedJobInput (b : StartBody) : JobInput :=
  { serviceCategory := b.serviceCategory, state := b.state,
    minReviews := b.minReviews, maxResults := b.maxResults,
    limitOnePerDomain := false }

/-! ## Helper lemmas -/

/-- Membership in the `foldl`-built deduplicated list. -/
theorem mem_dedupList_foldl (l : List String) :
    ∀ (acc : List String) (a : String),
      (a ∈ l.foldl (fun acc e => if acc.contains e then acc else acc ++ [e]) acc) ↔
        (a ∈ acc ∨ a ∈ l) := by
  induction l with
  | nil => intro acc a; simp
  | cons e rest ih =>
    intro acc a
    simp only [List.foldl_cons]
    by_cases hc : acc.contains e
    · rw [if_pos hc, ih]
      constructor
      · rintro (h | h)
        · exact Or.inl h
        · exact Or.inr (List.mem_cons_of_mem _ h)
      · rintro (h | h)
        · exact Or.inl h
        · rcases List.mem_cons.mp h with h | h
          · subst h; exact Or.inl (by simpa using hc)
          · exact Or.inr h
    · rw [if_neg hc, ih]
      simp only [List.mem_append, List.mem_singleton, List.mem_cons]
      tauto

/-- Membership is preserved by `dedupList`. -/
theorem mem_dedupList (l : List String) (a : String) :
    a ∈ dedupList l ↔ a ∈ l := by
  unfold dedupList
  rw [mem_dedupList_foldl]
  simp

/-- Rebuilding a string from its own character data is the identity. -/
theorem strMk_data (s : String) : String.mk s.data = s := rfl

/-- Quote-doubling round-trips through the quoted-field parser. -/
theorem parseQuoted_escQuotes (cs : List Char) :
    parseQuotedChars (escQuotesChars cs ++ ['"']) = some cs := by
  induction cs with
  | nil => simp [escQuotesChars, parseQuotedChars]
  | cons c rest ih =>
    by_cases hc : c = '"'
    · subst hc
      simp [escQuotesChars, parseQuotedChars, ih]
    · simp only [escQuotesChars, hc, if_neg, List.cons_append, List.nil_append,
        List.append_assoc]
      rw [parseQuotedChars.eq_def]
      simp [hc, ih]

/-- The `foldl`-push loop of `generateCsv` equals prepending the map. -/
theorem foldl_push_lines (rows : List CsvRow) :
    ∀ init : List String,
      rows.foldl (fun acc row => acc ++ [csvLineOf row]) init = init ++ rows.map csvLineOf := by
  induction rows with
  | nil => intro init; simp
  | cons r rest ih => intro init; simp [ih]

/-- C6: for every string value — including ones containing a comma, a double
quote and a newline — parsing the field produced by `escapeField` back under
the standard CSV grammar recovers the exact original string; and `generateCsv`
produces exactly one header line plus one line per row, fields joined by
commas and rows joined by newlines (it is a pure function, hence
deterministic). -/
theorem csv_escape_roundtrip_and_shape :
    (∀ v : String, parseCsvField (escapeField v) = some v) ∧
    (∀ rows : List CsvRow, generateCsv rows = generateCsvSpec rows) := by
  constructor
  · intro v
    unfold escapeField
    by_cases h0 : v.data = []
    · rw [if_pos h0]
      have hv : v = "" := by
        cases v with
        | mk data => simp at h0; simp [h0]
      subst hv
      rfl
    · rw [if_neg h0]
      by_cases hs : hasSpecial v.data
      · rw [if_pos hs]
        rw [parseCsvField.eq_def]
        simp only [if_true]
        rw [parseQuoted_escQuotes]
        simp [strMk_data]
      · rw [if_neg hs]
        rw [parseCsvField.eq_def]
        cases hv : v.data with
        | nil => exact absurd hv h0
        | cons c cs =>
          have hcq : c ≠ '"' := by
            intro hq
            apply hs
            unfold hasSpecial
            subst hq
            rw [hv]
            simp
          have hss : hasSpecial (c :: cs) = false := by
            rw [← hv]; exact Bool.of_not_eq_true hs
          simp only [hcq, if_neg, hss, Bool.false_eq_true, ite_false]
          rw [← hv, strMk_data]
  · intro rows
    unfold generateCsv generateCsvSpec
    rw [foldl_push_lines]
    simp

/-- C2: `canStart` returns `ok = false` whenever the current job is running;
when no job is running and none has ever completed it returns `ok = true`;
and after a completion timestamp has been recorded it returns `ok = false`
exactly while less than the 10-minute window has elapsed since that
timestamp, and `ok = true` exactly once the window has elapsed. -/
theorem canStart_spec (m : ManagerState) (now : Int) :
    (m.currentJob.status = .running → (canStart m now).ok = false) ∧
    (m.currentJob.status ≠ .running → m.lastCompletedAt = 0 →
      (canStart m now).ok = true) ∧
    (m.currentJob.status ≠ .running → m.lastCompletedAt ≠ 0 →
      ((canStart m now).ok = false ↔ now - m.lastCompletedAt < COOLDOWN_MS)) ∧
    (m.currentJob.status ≠ .running → m.lastCompletedAt ≠ 0 →
      ((canStart m now).ok = true ↔ COOLDOWN_MS ≤ now - m.lastCompletedAt)) := by
  unfold canStart getCooldownRemaining
  refine ⟨fun h => by rw [if_pos h], fun h h0 => ?_, fun h h0 => ?_, fun h h0 => ?_⟩
  · rw [if_neg h]
    simp only [if_pos h0]
    norm_num
  · rw [if_neg h]
    simp only [if_neg h0]
    by_cases hc : max 0 (COOLDOWN_MS - (now - m.lastCompletedAt)) > 0
    · rw [if_pos hc]
      simp only [true_iff]
      unfold COOLDOWN_MS at hc ⊢
      omega
    · rw [if_neg hc]
      simp only [Bool.true_eq_false, false_iff, not_lt]
      unfold COOLDOWN_MS at hc ⊢
      omega
  · rw [if_neg h]
    simp only [if_neg h0]
    by_cases hc : max 0 (COOLDOWN_MS - (now - m.lastCompletedAt)) > 0
    · rw [if_pos hc]
      simp only [Bool.false_eq_true, false_iff, not_le]
      unfold COOLDOWN_MS at hc ⊢
      omega
    · rw [if_neg hc]
      simp only [true_iff]
      unfold COOLDOWN_MS at hc ⊢
      omega

/-- Witness for C2 at concrete inputs: a running job blocks the start, and
five minutes after a completion the start is still blocked. -/
theorem canStart_spec_witness :
    (canStart ⟨{ createEmptyJob with status := .running }, 0⟩ 5).ok = false ∧
    ((⟨createEmptyJob, 1000⟩ : ManagerState).currentJob.status ≠ .running ∧
      (1000 : Int) ≠ 0 ∧
      ((canStart ⟨createEmptyJob, 1000⟩ 301000).ok = false ↔
        (301000 : Int) - 1000 < COOLDOWN_MS)) := by
  refine ⟨(canStart_spec _ 5).1 rfl, by decide, by decide, ?_⟩
  exact (canStart_spec ⟨createEmptyJob, 1000⟩ 301000).2.2.1 (by decide) (by decide)

/-- C10: `clearData` resets the job record to the fresh empty one but leaves
the last-completion timestamp — and hence the remaining cooldown — unchanged,
so `canStart` still refuses exactly while cooldown time remains. -/
theorem clearData_frame (m : ManagerState) (now : Int) :
    (clearData m).currentJob = createEmptyJob ∧
    (clearData m).lastCompletedAt = m.lastCompletedAt ∧
    getCooldownRemaining (clearData m) now = getCooldownRemaining m now ∧
    (0 < getCooldownRemaining m now → (canStart (clearData m) now).ok = false) ∧
    (getCooldownRemaining m now = 0 → (canStart (clearData m) now).ok = true) := by
  refine ⟨rfl, rfl, rfl, fun h => ?_, fun h => ?_⟩
  · unfold canStart
    rw [if_neg (by simp [clearData, createEmptyJob])]
    rw [if_pos (by exact h)]
  · unfold canStart
    rw [if_neg (by simp [clearData, createEmptyJob])]
    have he : getCooldownRemaining (clearData m) now = getCooldownRemaining m now := rfl
    rw [if_neg (by rw [he, h]; omega)]

/-- Witness for C10 at a concrete state: one millisecond after a completion,
clearing the data leaves the full cooldown in place and `canStart` refuses. -/
theorem clearData_frame_witness :
    (0 : Int) < getCooldownRemaining ⟨createEmptyJob, 1⟩ 1 ∧
    (canStart (clearData ⟨createEmptyJob, 1⟩) 1).ok = false := by
  refine ⟨by decide, ?_⟩
  exact (clearData_frame ⟨createEmptyJob, 1⟩ 1).2.2.2.1 (by decide)

/-- C8: with the provider key configured, `verifyEmail` never throws — every
outcome yields a result record for the same email — and classifies it as
follows: `safe = true` exactly when the response succeeded with a body whose
effective status string, lowercased, is `deliverable`, `safe` or `valid`; an
HTTP 408 response yields result `timeout` with `safe = false`; a thrown
exception, any other non-success response, or a body that fails to parse
yields result `error` with `safe = false`. -/
theorem verifyEmail_classification (email : String) (out : HttpOutcome) :
    ∃ r : VerificationResult, verifyEmail true email out = .ok r ∧ r.email = email ∧
      (r.safe = true ↔ ∃ code b, out = .response code (some b) ∧ respOk code = true ∧
        strLower (effectiveStatus b) ∈ safeStatuses) ∧
      (∀ body, out = .response 408 body → r.result = "timeout" ∧ r.safe = false) ∧
      (out = .thrown → r.result = "error" ∧ r.safe = false) ∧
      (∀ code body, out = .response code body → respOk code = false → code ≠ 408 →
        r.result = "error" ∧ r.safe = false) ∧
      (∀ code, out = .response code none → respOk code = true →
        r.result = "error" ∧ r.safe = false) := by
  cases out with
  | thrown =>
    refine ⟨⟨email, "error", false⟩, rfl, rfl, ?_, ?_, ?_, ?_, ?_⟩
    · simp
    · intro body h; exact absurd h (by simp)
    · intro _; exact ⟨rfl, rfl⟩
    · intro code body h; exact absurd h (by simp)
    · intro code h; exact absurd h (by simp)
  | response code body =>
    by_cases hok : respOk code = true
    · cases body with
      | none =>
        refine ⟨⟨email, "error", false⟩, ?_, rfl, ?_, ?_, ?_, ?_, ?_⟩
        · simp [verifyEmail, hok]
        · simp
        · intro b hb
          have h408 : code = 408 := by injection hb with h1 _
          subst h408
          exact absurd hok (by decide)
        · intro h; exact absurd h (by simp)
        · intro c b hb hf _
          injection hb with h1 _
          subst h1
          rw [hok] at hf
          exact absurd hf (by simp)
        · intro _ _ _; exact ⟨rfl, rfl⟩
      | some b =>
        refine ⟨⟨email, strLower (effectiveStatus b),
          strLower (effectiveStatus b) = "deliverable" ||
          strLower (effectiveStatus b) = "safe" ||
          strLower (effectiveStatus b) = "valid"⟩, ?_, rfl, ?_, ?_, ?_, ?_, ?_⟩
        · simp [verifyEmail, hok]
        · constructor
          · intro hs
            refine ⟨code, b, rfl, hok, ?_⟩
            unfold safeStatuses
            simp only [Bool.or_eq_true, decide_eq_true_eq] at hs
            rcases hs with (h | h) | h <;> simp [h]
          · intro ⟨c2, b2, hb2, _, hmem⟩
            have h2 : b2 = b := by
              injection hb2 with _ hv
              injection hv with hv2
              exact hv2.symm
            subst h2
            simp only [safeStatuses, List.mem_cons, List.not_mem_nil, or_false] at hmem
            rcases hmem with h | h | h <;> simp [h]
        · intro b2 hb
          have h408 : code = 408 := by injection hb with h1 _
          subst h408
          exact absurd hok (by decide)
        · intro h; exact absurd h (by simp)
        · intro c b2 hb hf _
          injection hb with h1 _
          subst h1
          rw [hok] at hf
          exact absurd hf (by simp)
        · intro c hb
          injection hb with _ h2
          exact absurd h2 (by simp)
    · have hf : respOk code = false := by
        cases h : respOk code
        · rfl
        · exact absurd h hok
      by_cases h408 : code = 408
      · subst h408
        refine ⟨⟨email, "timeout", false⟩, ?_, rfl, ?_, ?_, ?_, ?_, ?_⟩
        · simp [verifyEmail, hf]
        · simp only [Bool.false_eq_true, false_iff]
          rintro ⟨c2, b2, hb2, hok2, _⟩
          injection hb2 with h1 _
          subst h1
          rw [hok2] at hf
          exact absurd hf (by simp)
        · intro _ _; exact ⟨rfl, rfl⟩
        · intro h; exact absurd h (by simp)
        · intro c b2 hb _ hne
          injection hb with h1 _
          exact absurd h1.symm hne
        · intro c hb hok2
          injection hb with h1 _
          subst h1
          rw [hok2] at hf
          exact absurd hf (by simp)
      · refine ⟨⟨email, "error", false⟩, ?_, rfl, ?_, ?_, ?_, ?_, ?_⟩
        · simp [verifyEmail, hf, h408]
        · simp only [Bool.false_eq_true, false_iff]
          rintro ⟨c2, b2, hb2, hok2, _⟩
          injection hb2 with h1 _
          subst h1
          rw [hok2] at hf
          exact absurd hf (by simp)
        · intro b2 hb
          injection hb with h1 _
          exact absurd h1 h408
        · intro h; exact absurd h (by simp)
        · intro _ _ _ _ _; exact ⟨rfl, rfl⟩
        · intro c hb hok2
          injection hb with h1 _
          subst h1
          rw [hok2] at hf
          exact absurd hf (by simp)

/-- Witness for C8 at concrete inputs: a 408 response classifies as timeout,
and a 200 response with status `Deliverable` classifies as safe. -/
theorem verifyEmail_classification_witness :
    (∃ r : VerificationResult, verifyEmail true "a@b.c" (.response 408 none) = .ok r ∧
      r.result = "timeout" ∧ r.safe = false) ∧
    (∃ r : VerificationResult, verifyEmail true "a@b.c"
      (.response 200 (some ⟨"Deliverable", ""⟩)) = .ok r ∧ r.safe = true) := by
  constructor
  · obtain ⟨r, h1, _, _, h408, _⟩ := verifyEmail_classification "a@b.c" (.response 408 none)
    exact ⟨r, h1, (h408 none rfl).1, (h408 none rfl).2⟩
  · obtain ⟨r, h1, _, hsafe, _⟩ := verifyEmail_classification "a@b.c"
      (.response 200 (some ⟨"Deliverable", ""⟩))
    refine ⟨r, h1, ?_⟩
    exact hsafe.mpr ⟨200, ⟨"Deliverable", ""⟩, rfl, by decide, by decide⟩

/-- Invariants preserved by the inner result loop of the discovery scan:
every accepted domain is in the seen set, accepted domains are pairwise
distinct, the accepted count never exceeds the cap, and every accepted listing
meets the review threshold. -/
theorem acceptListings_inv (minReviews maxResults : Nat) (city : String) :
    ∀ (ls : List BusinessListing) (st : PullState),
      (∀ l ∈ st.acc, extractDomain l.website ∈ st.seen) →
      (st.acc.map (fun l => extractDomain l.website)).Nodup →
      st.acc.length ≤ maxResults →
      (∀ l ∈ st.acc, minReviews ≤ l.reviewsCount) →
      ((∀ l ∈ (acceptListings minReviews maxResults city ls st).acc,
          extractDomain l.website ∈ (acceptListings minReviews maxResults city ls st).seen) ∧
        ((acceptListings minReviews maxResults city ls st).acc.map
          (fun l => extractDomain l.website)).Nodup ∧
        (acceptListings minReviews maxResults city ls st).acc.length ≤ maxResults ∧
        (∀ l ∈ (acceptListings minReviews maxResults city ls st).acc,
          minReviews ≤ l.reviewsCount)) := by
  intro ls
  induction ls with
  | nil =>
    intro st h1 h2 h3 h4
    simp only [acceptListings]
    exact ⟨h1, h2, h3, h4⟩
  | cons l rest ih =>
    intro st h1 h2 h3 h4
    simp only [acceptListings]
    by_cases hcap : st.acc.length ≥ maxResults
    · rw [if_pos hcap]
      exact ⟨h1, h2, h3, h4⟩
    · rw [if_neg hcap]
      by_cases hseen : st.seen.contains (extractDomain l.website)
      · rw [if_pos hseen]
        exact ih st h1 h2 h3 h4
      · rw [if_neg hseen]
        by_cases hrev : l.reviewsCount < minReviews
        · rw [if_pos hrev]
          exact ih st h1 h2 h3 h4
        · rw [if_neg hrev]
          have hnotseen : extractDomain l.website ∉ st.seen := by
            intro hmem
            exact hseen (by simpa using hmem)
          apply ih
          · intro x hx
            rcases List.mem_append.mp hx with hx | hx
            · exact List.mem_append.mpr (Or.inl (h1 x hx))
            · simp only [List.mem_singleton] at hx
              subst hx
              exact List.mem_append.mpr (Or.inr (by simp))
          · rw [List.map_append]
            rw [List.nodup_append]
            refine ⟨h2, by simp, ?_⟩
            intro a ha hb
            simp only [List.map_cons, List.map_nil, List.mem_singleton] at hb
            subst hb
            have : extractDomain ({ l with city := city } : BusinessListing).website ∈
                st.seen := by
              rcases List.mem_map.mp ha with ⟨x, hx, hdx⟩
              rw [← hdx]
              exact h1 x hx
            exact hnotseen this
          · rw [List.length_append]
            simp only [List.length_singleton]
            omega
          · intro x hx
            rcases List.mem_append.mp hx with hx | hx
            · exact h4 x hx
            · simp only [List.mem_singleton] at hx
              subst hx
              show minReviews ≤ l.reviewsCount
              omega

/-- The same four invariants lifted through the outer sub-region loop. -/
theorem pullAux_inv (searchOf : String → Option (List BusinessListing))
    (serviceCategory state : String) (minReviews maxResults : Nat) :
    ∀ (cities : List String) (st : PullState) (q : Nat),
      (∀ l ∈ st.acc, extractDomain l.website ∈ st.seen) →
      (st.acc.map (fun l => extractDomain l.website)).Nodup →
      st.acc.length ≤ maxResults →
      (∀ l ∈ st.acc, minReviews ≤ l.reviewsCount) →
      (((pullAux searchOf serviceCategory state minReviews maxResults cities st q).1.acc.map
          (fun l => extractDomain l.website)).Nodup ∧
        (pullAux searchOf serviceCategory state minReviews maxResults cities st q).1.acc.length ≤
          maxResults ∧
        (∀ l ∈ (pullAux searchOf serviceCategory state minReviews maxResults cities st q).1.acc,
          minReviews ≤ l.reviewsCount)) := by
  intro cities
  induction cities with
  | nil =>
    intro st q h1 h2 h3 h4
    simp only [pullAux]
    exact ⟨h2, h3, h4⟩
  | cons city rest ih =>
    intro st q h1 h2 h3 h4
    simp only [pullAux]
    by_cases hcap : st.acc.length ≥ maxResults
    · rw [if_pos hcap]
      exact ⟨h2, h3, h4⟩
    · rw [if_neg hcap]
      cases hs : searchOf (queryFor serviceCategory city state) with
      | none => exact ih st (q + 1) h1 h2 h3 h4
      | some listings =>
        obtain ⟨g1, g2, g3, g4⟩ :=
          acceptListings_inv minReviews maxResults city listings st h1 h2 h3 h4
        exact ih _ (q + 1) g1 g2 g3 g4

/-- When the domains of a listing list are pairwise distinct, at most one of
its elements carries any given domain. -/
theorem filter_domain_len_le (d : String) :
    ∀ l : List BusinessListing,
      ((l.map (fun x => extractDomain x.website)).Nodup) →
      (l.filter (fun x => extractDomain x.website == d)).length ≤ 1 := by
  intro l
  induction l with
  | nil => intro _; simp
  | cons x rest ih =>
    intro h
    rw [List.map_cons, List.nodup_cons] at h
    rw [List.filter_cons]
    by_cases hx : extractDomain x.website == d
    · have hd : extractDomain x.website = d := by simpa using hx
      rw [if_pos hx]
      have hrest : rest.filter (fun y => extractDomain y.website == d) = [] := by
        rw [List.filter_eq_nil_iff]
        intro y hy hyd
        apply h.1
        rw [hd, ← show extractDomain y.website = d by simpa using hyd]
        exact List.mem_map.mpr ⟨y, hy, rfl⟩
      rw [hrest]
      simp
    · rw [if_neg hx]
      exact ih h.2

/-- C3 (amended): within one discovery run the normalized domains of all
accepted listings are pairwise distinct — equivalently, at most one accepted
listing carries any given domain, so a result sharing a domain with an
already-accepted listing is always skipped.  (The claim's further assertion
that the first-seen result of a domain is always the one kept fails when the
first-seen result is itself skipped for a low review count; see the
counterexample.) -/
theorem discovery_domains_nodup (searchOf : String → Option (List BusinessListing))
    (serviceCategory state : String) (cities : List String)
    (minReviews maxResults : Nat) :
    (((pullBusinessListings searchOf serviceCategory state cities minReviews
        maxResults).1.map (fun l => extractDomain l.website)).Nodup) ∧
    (∀ d : String,
      ((pullBusinessListings searchOf serviceCategory state cities minReviews
        maxResults).1.filter (fun l => extractDomain l.website == d)).length ≤ 1) := by
  have h := pullAux_inv searchOf serviceCategory state minReviews maxResults cities
    ⟨[], []⟩ 0 (by simp) (by simp) (by simp) (by simp)
  refine ⟨h.1, fun d => ?_⟩
  exact filter_domain_len_le d _ h.1

/-- Counterexample for C3 as stated: two scan-order results share the domain
`acme.com`; the first-seen one (B1, 1 review, below the threshold of 10) is
not kept, and the later one (B2, 50 reviews) is accepted rather than skipped
— a below-threshold first occurrence does not reserve the domain. -/
theorem discovery_first_seen_cex :
    ((pullBusinessListings
        (fun q => if q = "plumber Detroit MI" then
          some [⟨"B1", "", "", "", "https://acme.com", 4, 1, "plumber Detroit MI"⟩,
                ⟨"B2", "", "", "", "https://acme.com", 5, 50, "plumber Detroit MI"⟩]
          else some [])
        "plumber" "Michigan" ["Detroit"] 10 10).1.map (fun l => l.businessName)) = ["B2"] ∧
    extractDomain "https://acme.com" = "acme.com" := by
  constructor
  · decide
  · decide

/-- C4: the discovery stage returns at most `maxResults` listings, every
returned listing meets the review threshold, and once the accepted count has
reached `maxResults` the sub-region loop issues no further query and returns
immediately. -/
theorem discovery_cap_threshold (searchOf : String → Option (List BusinessListing))
    (serviceCategory state : String) (cities : List String)
    (minReviews maxResults : Nat) :
    ((pullBusinessListings searchOf serviceCategory state cities minReviews
        maxResults).1.length ≤ maxResults) ∧
    (∀ l ∈ (pullBusinessListings searchOf serviceCategory state cities minReviews
        maxResults).1, minReviews ≤ l.reviewsCount) ∧
    (∀ (cities2 : List String) (st : PullState) (q : Nat),
      maxResults ≤ st.acc.length →
      pullAux searchOf serviceCategory state minReviews maxResults cities2 st q = (st, q)) := by
  have h := pullAux_inv searchOf serviceCategory state minReviews maxResults cities
    ⟨[], []⟩ 0 (by simp) (by simp) (by simp) (by simp)
  refine ⟨h.2.1, h.2.2, ?_⟩
  intro cities2 st q hcap
  cases cities2 with
  | nil => rfl
  | cons c rest =>
    simp only [pullAux]
    rw [if_pos (by omega)]

/-- Witness for C4 at concrete inputs: a one-city run accepts one qualifying
listing within the cap and above the threshold, and a full accumulator stops
the scan at once. -/
theorem discovery_cap_threshold_witness :
    (pullBusinessListings
      (fun q => if q = "plumber Detroit MI" then
        some [⟨"Acme", "", "", "", "https://acme.com", 5, 10, "plumber Detroit MI"⟩]
        else some [])
      "plumber" "Michigan" ["Detroit"] 3 5).1.length ≤ 5 ∧
    3 ≤ (⟨"Acme", "", "Detroit", "", "https://acme.com", 5, 10,
      "plumber Detroit MI"⟩ : BusinessListing).reviewsCount ∧
    pullAux (fun _ => (some [] : Option (List BusinessListing))) "a" "b" 3 0 ["x"]
      ⟨[], []⟩ 0 = (⟨[], []⟩, 0) := by
  refine ⟨(discovery_cap_threshold _ "plumber" "Michigan" ["Detroit"] 3 5).1, ?_, ?_⟩
  · exact (discovery_cap_threshold
      (fun q => if q = "plumber Detroit MI" then
        some [⟨"Acme", "", "", "", "https://acme.com", 5, 10, "plumber Detroit MI"⟩]
        else some [])
      "plumber" "Michigan" ["Detroit"] 3 5).2.1 _ (by decide)
  · exact (discovery_cap_threshold (fun _ => some []) "a" "b" [] 3 0).2.2 ["x"]
      ⟨[], []⟩ 0 (by decide)

/-- The enrichment loop never accumulates more than
`ENRICH_PER_BUSINESS_CAP` results. -/
theorem findLoop_length_le (enrichOf : Nat → EnrichOutcome) :
    ∀ (people : List Person) (i : Nat) (results : List ProspeoResult) (s : RunSummary),
      results.length ≤ ENRICH_PER_BUSINESS_CAP →
      (findLoop enrichOf people i results s).1.length ≤ ENRICH_PER_BUSINESS_CAP := by
  intro people
  induction people with
  | nil => intro i results s h; simpa [findLoop] using h
  | cons p rest ih =>
    intro i results s h
    simp only [findLoop]
    by_cases hcap : results.length ≥ ENRICH_PER_BUSINESS_CAP
    · rw [if_pos hcap]; exact h
    · rw [if_neg hcap]
      by_cases hn : fullNameOf p = ""
      · rw [if_pos hn]; exact ih (i + 1) results s h
      · rw [if_neg hn]
        cases ho : enrichOf i with
        | httpError => exact ih _ _ _ h
        | thrown => exact ih _ _ _ h
        | apiError noMatch => exact ih _ _ _ h
        | okBody e =>
          by_cases he : e ≠ ""
          · dsimp only
            rw [if_pos he]
            apply ih
            rw [List.length_append]
            simp only [List.length_singleton]
            omega
          · dsimp only
            rw [if_neg he]
            exact ih _ _ _ h

/-- The `enrichAttempts` counter of the enrichment loop increases by exactly
the number of candidates attempted, as counted by `attemptedOn`. -/
theorem findLoop_attempts (enrichOf : Nat → EnrichOutcome) :
    ∀ (people : List Person) (i : Nat) (results : List ProspeoResult) (s : RunSummary),
      (findLoop enrichOf people i results s).2.enrichAttempts =
        s.enrichAttempts + attemptedOn enrichOf people i results.length := by
  intro people
  induction people with
  | nil => intro i results s; simp [findLoop, attemptedOn]
  | cons p rest ih =>
    intro i results s
    simp only [findLoop, attemptedOn]
    by_cases hcap : results.length ≥ ENRICH_PER_BUSINESS_CAP
    · rw [if_pos hcap, if_pos hcap]
      simp
    · rw [if_neg hcap, if_neg hcap]
      by_cases hn : fullNameOf p = ""
      · rw [if_pos hn, if_pos hn]
        exact ih (i + 1) results s
      · rw [if_neg hn, if_neg hn]
        cases ho : enrichOf i with
        | httpError =>
          dsimp only
          rw [ih]
          simp only [foundCount, Nat.add_zero]
          omega
        | thrown =>
          dsimp only
          rw [ih]
          simp only [foundCount, Nat.add_zero]
          omega
        | apiError noMatch =>
          dsimp only
          rw [ih]
          cases noMatch with
          | false => simp [foundCount]; omega
          | true => simp [foundCount]; omega
        | okBody e =>
          dsimp only
          by_cases he : e ≠ ""
          · rw [if_pos he, ih]
            simp only [foundCount, if_pos he, List.length_append, List.length_singleton]
            omega
          · rw [if_neg he, ih]
            simp only [foundCount, if_neg he, Nat.add_zero]
            omega

/-- The `verifiedEmailsReturned` counter of the enrichment loop increases by
exactly the number of results found. -/
theorem findLoop_verified (enrichOf : Nat → EnrichOutcome) :
    ∀ (people : List Person) (i : Nat) (results : List ProspeoResult) (s : RunSummary),
      (findLoop enrichOf people i results s).2.verifiedEmailsReturned + results.length =
        s.verifiedEmailsReturned + (findLoop enrichOf people i results s).1.length := by
  intro people
  induction people with
  | nil => intro i results s; simp [findLoop]
  | cons p rest ih =>
    intro i results s
    simp only [findLoop]
    by_cases hcap : results.length ≥ ENRICH_PER_BUSINESS_CAP
    · rw [if_pos hcap]
    · rw [if_neg hcap]
      by_cases hn : fullNameOf p = ""
      · rw [if_pos hn]; exact ih (i + 1) results s
      · rw [if_neg hn]
        cases ho : enrichOf i with
        | httpError => exact ih _ _ _
        | thrown => exact ih _ _ _
        | apiError noMatch =>
          dsimp only
          cases noMatch with
          | false =>
            rw [if_neg (by simp)]
            exact ih _ _ _
          | true =>
            rw [if_pos rfl]
            exact ih _ _ _
        | okBody e =>
          dsimp only
          by_cases he : e ≠ ""
          · rw [if_pos he]
            have h2 := ih (i + 1)
              (results ++ [⟨strLower e, "verified", fullNameOf p, p.current_job_title⟩])
              ⟨s.businessesProcessed, s.contactsFound, s.enrichAttempts + 1,
                s.verifiedEmailsReturned + 1, s.creditsEstimated + 1⟩
            simp only [List.length_append, List.length_singleton] at h2 ⊢
            omega
          · rw [if_neg he]
            exact ih _ _ _

/-- Membership in a rank-stable insertion. -/
theorem mem_insertByRank (p x : Person) :
    ∀ l : List Person, x ∈ insertByRank p l ↔ x = p ∨ x ∈ l := by
  intro l
  induction l with
  | nil => simp [insertByRank]
  | cons q rest ih =>
    simp only [insertByRank]
    by_cases hle : personRank q ≤ personRank p
    · rw [if_pos hle]
      simp only [List.mem_cons, ih]
      tauto
    · rw [if_neg hle]
      simp [List.mem_cons]

/-- Rank-stable insertion preserves sortedness by rank. -/
theorem insertByRank_sorted (p : Person) :
    ∀ l : List Person,
      l.Pairwise (fun a b => personRank a ≤ personRank b) →
      (insertByRank p l).Pairwise (fun a b => personRank a ≤ personRank b) := by
  intro l
  induction l with
  | nil => intro _; simp [insertByRank]
  | cons q rest ih =>
    intro h
    rw [List.pairwise_cons] at h
    simp only [insertByRank]
    by_cases hle : personRank q ≤ personRank p
    · rw [if_pos hle]
      rw [List.pairwise_cons]
      constructor
      · intro y hy
        rcases (mem_insertByRank p y rest).mp hy with hy | hy
        · subst hy; exact hle
        · exact h.1 y hy
      · exact ih h.2
    · rw [if_neg hle]
      have hpq : personRank p ≤ personRank q := by omega
      rw [List.pairwise_cons]
      constructor
      · intro y hy
        rcases List.mem_cons.mp hy with hy | hy
        · subst hy; exact hpq
        · exact le_trans hpq (h.1 y hy)
      · rw [List.pairwise_cons]
        exact h

/-- The seniority sort produces a list sorted by rank (stable by
construction: equal-rank elements keep their relative order). -/
theorem sortBySeniority_sorted (people : List Person) :
    (sortBySeniority people).Pairwise (fun a b => personRank a ≤ personRank b) := by
  unfold sortBySeniority
  have key : ∀ (l acc : List Person),
      acc.Pairwise (fun a b => personRank a ≤ personRank b) →
      (l.foldl (fun acc p => insertByRank p acc) acc).Pairwise
        (fun a b => personRank a ≤ personRank b) := by
    intro l
    induction l with
    | nil => intro acc h; simpa using h
    | cons p rest ih =>
      intro acc h
      simp only [List.foldl_cons]
      exact ih _ (insertByRank_sorted p acc h)
  exact key people [] (by simp)

/-- Packaging of the enrichment-loop facts for a loop started with an empty
result list. -/
theorem findLoop_package (enrichOf : Nat → EnrichOutcome) (people : List Person)
    (s1 : RunSummary) :
    ∃ (results : List ProspeoResult) (s2 : RunSummary),
      findLoop enrichOf people 0 [] s1 = (results, s2) ∧
      results.length ≤ ENRICH_PER_BUSINESS_CAP ∧
      s2.enrichAttempts = s1.enrichAttempts + attemptedOn enrichOf people 0 0 ∧
      s2.verifiedEmailsReturned = s1.verifiedEmailsReturned + results.length := by
  refine ⟨(findLoop enrichOf people 0 [] s1).1, (findLoop enrichOf people 0 [] s1).2,
    rfl, ?_, ?_, ?_⟩
  · exact findLoop_length_le enrichOf people 0 [] s1 (by simp [ENRICH_PER_BUSINESS_CAP])
  · have := findLoop_attempts enrichOf people 0 [] s1
    simpa using this
  · have := findLoop_verified enrichOf people 0 [] s1
    simpa using this

/-- C5 (amended): with the provider key configured and a successful candidate
search, at most `ENRICH_PER_BUSINESS_CAP` (2) candidates per domain yield
enrichment results — the cap applies to successful enrichments, with further
candidates attempted until two emails are found or candidates run out; the
candidates are processed in seniority-rank order (owner/founder first,
unmatched titles last); and the run summary's `enrichAttempts` increases by
exactly the number of candidates attempted (`attemptedOn`), while
`verifiedEmailsReturned` increases by the number of emails found. -/
theorem enrich_cap_and_attempts (people : List Person)
    (enrichOf : Nat → EnrichOutcome) (s : RunSummary) :
    ∃ (results : List ProspeoResult) (s2 : RunSummary),
      findEmailsByDomain true (.okBody people) enrichOf s = .ok (results, s2) ∧
      results.length ≤ ENRICH_PER_BUSINESS_CAP ∧
      s2.enrichAttempts = s.enrichAttempts +
        attemptedOn enrichOf (sortBySeniority (people.take SEARCH_PERSON_LIMIT)) 0 0 ∧
      s2.verifiedEmailsReturned = s.verifiedEmailsReturned + results.length ∧
      (sortBySeniority (people.take SEARCH_PERSON_LIMIT)).Pairwise
        (fun a b => personRank a ≤ personRank b) := by
  unfold findEmailsByDomain
  simp only [Bool.true_eq_false, if_neg, ite_false]
  by_cases h0 : (people.take SEARCH_PERSON_LIMIT).length = 0
  · rw [if_pos h0]
    have hnil : people.take SEARCH_PERSON_LIMIT = [] := List.length_eq_zero.mp h0
    refine ⟨[], _, rfl, by simp [ENRICH_PER_BUSINESS_CAP], ?_, rfl, ?_⟩
    · rw [hnil]
      simp [sortBySeniority, attemptedOn]
    · rw [hnil]
      simp [sortBySeniority]
  · rw [if_neg h0]
    obtain ⟨results, s2, heq, h1, h2, h3⟩ := findLoop_package enrichOf
      (sortBySeniority (people.take SEARCH_PERSON_LIMIT))
      ⟨s.businessesProcessed + 1, s.contactsFound + (people.take SEARCH_PERSON_LIMIT).length,
        s.enrichAttempts, s.verifiedEmailsReturned, s.creditsEstimated⟩
    refine ⟨results, s2, ?_, h1, ?_, ?_, sortBySeniority_sorted _⟩
    · exact congrArg Except.ok heq
    · simpa using h2
    · simpa using h3

/-- Counterexample for C5 as stated: three named candidates are returned; the
enrichment call fails for each (no email found), so all three candidates are
enrichment-attempted — `enrichAttempts` rises by 3, exceeding the per-domain
cap of 2, which caps successful results rather than attempts. -/
theorem enrich_attempt_cap_cex :
    findEmailsByDomain true
      (.okBody [⟨"Alice A", "", "", "Owner"⟩, ⟨"Bob B", "", "", "Manager"⟩,
                ⟨"Carol C", "", "", "Director"⟩])
      (fun _ => .httpError) emptyRunSummary
      = .ok ([], ⟨1, 3, 3, 0, 3⟩) ∧ ENRICH_PER_BUSINESS_CAP < 3 :=
  ⟨rfl, by decide⟩

/-- Every email appearing in a row built by the CSV-assembly loop is a member
of the verified set the loop filters against. -/
theorem mem_buildCsvRows_email (listings : List BusinessListing)
    (m : List (Nat × List String)) (verified : List String) (limitOne : Bool)
    (row : CsvRow) (h : row ∈ buildCsvRows listings m verified limitOne) :
    row.email ∈ verified := by
  unfold buildCsvRows at h
  rw [List.mem_flatMap] at h
  obtain ⟨p, hp, hrow⟩ := h
  dsimp only at hrow
  by_cases h0 : ((lookupEmails m p.1).filter (fun e => verified.contains e)).length = 0
  · rw [if_pos h0] at hrow
    simp at hrow
  · rw [if_neg h0] at hrow
    rw [List.mem_map] at hrow
    obtain ⟨email, hemail, hmk⟩ := hrow
    have hrowEmail : row.email = email := by rw [← hmk]
    rw [hrowEmail]
    have hmem : email ∈ (lookupEmails m p.1).filter (fun e => verified.contains e) := by
      by_cases hl : limitOne
      · rw [if_pos hl] at hemail
        simp only [List.mem_singleton] at hemail
        subst hemail
        cases hv : (lookupEmails m p.1).filter (fun e => verified.contains e) with
        | nil => exact absurd (by rw [hv]; rfl) h0
        | cons a t => simp
      · rw [if_neg hl] at hemail
        exact hemail
    have := List.mem_filter.mp hmem
    simpa using this.2

/-- Key fact about the verification-and-CSV tail: when the verification key
is configured and the discovered-email set is nonempty, every CSV row's email
is a member of the safe-classified verified set. -/
theorem assembleStage_safe (env : EnvFlags) (input : JobInput)
    (listings : List BusinessListing) (websitesFound scrapeFound : Nat)
    (businessEmails : List (Nat × List String)) (summary : RunSummary)
    (enrichFound : Nat) (verifyOf : String → HttpOutcome)
    (hkey : env.bouncebanKey = true)
    (hne : (assembleStage env input listings websitesFound scrapeFound
      businessEmails summary enrichFound verifyOf).allEmails ≠ []) :
    ∀ row ∈ (assembleStage env input listings websitesFound scrapeFound
        businessEmails summary enrichFound verifyOf).rows.getD [],
      row.email ∈ safeVerifiedOf
        (assembleStage env input listings websitesFound scrapeFound
          businessEmails summary enrichFound verifyOf).allEmails verifyOf := by
  intro row hrow
  dsimp only [assembleStage] at hrow hne ⊢
  rw [if_pos ⟨List.length_pos.mpr hne, hkey⟩] at hrow
  simp only [Option.getD_some] at hrow
  exact mem_buildCsvRows_email _ _ _ _ _ hrow

/-- The tail's fallback: when the verification key is missing or no emails
were discovered, every discovered email is placed in the verified set, the
`emailsVerified` counter equals the size of the discovered set, and the
result does not depend on the verification oracle at all. -/
theorem assembleStage_fallback (env : EnvFlags) (input : JobInput)
    (listings : List BusinessListing) (websitesFound scrapeFound : Nat)
    (businessEmails : List (Nat × List String)) (summary : RunSummary)
    (enrichFound : Nat) (verifyOf : String → HttpOutcome)
    (hoff : env.bouncebanKey = false ∨ (assembleStage env input listings
      websitesFound scrapeFound businessEmails summary enrichFound
      verifyOf).allEmails = []) :
    (assembleStage env input listings websitesFound scrapeFound businessEmails
        summary enrichFound verifyOf).verifiedEmails =
      (assembleStage env input listings websitesFound scrapeFound businessEmails
        summary enrichFound verifyOf).allEmails ∧
    (assembleStage env input listings websitesFound scrapeFound businessEmails
        summary enrichFound verifyOf).stats.emailsVerified =
      (assembleStage env input listings websitesFound scrapeFound businessEmails
        summary enrichFound verifyOf).allEmails.length ∧
    (∀ verifyOf2 : String → HttpOutcome,
      assembleStage env input listings websitesFound scrapeFound businessEmails
        summary enrichFound verifyOf2 =
      assembleStage env input listings websitesFound scrapeFound businessEmails
        summary enrichFound verifyOf) := by
  dsimp only [assembleStage] at hoff ⊢
  have hcond : ¬(0 < (candidateEmailsOf businessEmails).length ∧
      env.bouncebanKey = true) := by
    rcases hoff with hbb | hA
    · rintro ⟨_, hbb2⟩
      rw [hbb] at hbb2
      exact absurd hbb2 (by simp)
    · rintro ⟨hpos, _⟩
      rw [hA] at hpos
      simp at hpos
  rw [if_neg hcond]
  exact ⟨rfl, rfl, fun verifyOf2 => by rw [if_neg hcond]⟩

/-- C1: whenever the verification stage was active for a run — the
verification key configured and at least one email discovered — every email
appearing in a row of the final CSV is a member of the verified-email set
built from the verification results classified safe. -/
theorem csv_rows_only_safe_verified (env : EnvFlags) (input : JobInput)
    (searchOf : String → Option (List BusinessListing)) (scrapeOf : Nat → List String)
    (enrichSearchOf : Nat → SearchOutcome) (enrichOf : Nat → Nat → EnrichOutcome)
    (verifyOf : String → HttpOutcome)
    (hcreds : env.dataforseoCreds = true) (hkey : env.bouncebanKey = true)
    (hne : (runPipeline env input searchOf scrapeOf enrichSearchOf enrichOf
      verifyOf).allEmails ≠ []) :
    ∀ row ∈ (runPipeline env input searchOf scrapeOf enrichSearchOf enrichOf
        verifyOf).rows.getD [],
      row.email ∈ safeVerifiedOf
        (runPipeline env input searchOf scrapeOf enrichSearchOf enrichOf
          verifyOf).allEmails verifyOf := by
  intro row hrow
  simp only [runPipeline, hcreds] at hrow hne ⊢
  by_cases hlen : (pullBusinessListings searchOf input.serviceCategory input.state
      MICHIGAN_CITIES input.minReviews input.maxResults).1.length = 0
  · rw [if_pos hlen] at hrow
    simp at hrow
  · rw [if_neg hlen] at hrow hne ⊢
    exact assembleStage_safe _ _ _ _ _ _ _ _ _ hkey hne row hrow

/-- Witness for C1 at a concrete run: one listing, one scraped email,
verification active and classifying it deliverable — the produced CSV row's
email is in the safe-verified set. -/
theorem csv_rows_only_safe_verified_witness :
    (⟨"Acme", "Detroit", "1 St", "5551234", "https://acme.com", "a@acme.com", 50, 5,
      "plumber Detroit MI"⟩ : CsvRow).email ∈
      safeVerifiedOf
        (runPipeline ⟨true, true, true⟩ ⟨"plumber", "Michigan", 1, 1, true⟩
          (fun q => if q = "plumber Detroit MI" then
            some [⟨"Acme", "1 St", "", "5551234", "https://acme.com", 5, 50,
              "plumber Detroit MI"⟩] else some [])
          (fun _ => ["a@acme.com"]) (fun _ => .httpError) (fun _ _ => .httpError)
          (fun _ => .response 200 (some ⟨"deliverable", ""⟩))).allEmails
        (fun _ => .response 200 (some ⟨"deliverable", ""⟩)) := by
  exact csv_rows_only_safe_verified ⟨true, true, true⟩ ⟨"plumber", "Michigan", 1, 1, true⟩
    (fun q => if q = "plumber Detroit MI" then
      some [⟨"Acme", "1 St", "", "5551234", "https://acme.com", 5, 50,
        "plumber Detroit MI"⟩] else some [])
    (fun _ => ["a@acme.com"]) (fun _ => .httpError) (fun _ _ => .httpError)
    (fun _ => .response 200 (some ⟨"deliverable", ""⟩))
    rfl rfl (by decide) _ (by decide)

/-- C7: when the DataForSEO credentials are present but the verification
provider is unconfigured — or no candidate emails were discovered — every
discovered unique email is placed in the verified set, the `emailsVerified`
counter equals the size of the discovered-unique-email set, and the run's
outcome does not depend on the verification oracle at all (the verification
stage is never consulted). -/
theorem verification_fallback (env : EnvFlags) (input : JobInput)
    (searchOf : String → Option (List BusinessListing)) (scrapeOf : Nat → List String)
    (enrichSearchOf : Nat → SearchOutcome) (enrichOf : Nat → Nat → EnrichOutcome)
    (verifyOf : String → HttpOutcome)
    (hcreds : env.dataforseoCreds = true)
    (hoff : env.bouncebanKey = false ∨
      (runPipeline env input searchOf scrapeOf enrichSearchOf enrichOf
        verifyOf).allEmails = []) :
    (runPipeline env input searchOf scrapeOf enrichSearchOf enrichOf
        verifyOf).verifiedEmails =
      (runPipeline env input searchOf scrapeOf enrichSearchOf enrichOf
        verifyOf).allEmails ∧
    (runPipeline env input searchOf scrapeOf enrichSearchOf enrichOf
        verifyOf).stats.emailsVerified =
      (runPipeline env input searchOf scrapeOf enrichSearchOf enrichOf
        verifyOf).allEmails.length ∧
    (∀ verifyOf2 : String → HttpOutcome,
      runPipeline env input searchOf scrapeOf enrichSearchOf enrichOf verifyOf2 =
        runPipeline env input searchOf scrapeOf enrichSearchOf enrichOf verifyOf) := by
  simp only [runPipeline, hcreds] at hoff ⊢
  by_cases hlen : (pullBusinessListings searchOf input.serviceCategory input.state
      MICHIGAN_CITIES input.minReviews input.maxResults).1.length = 0
  · simp only [if_pos hlen] at hoff ⊢
    simp
  · simp only [if_neg hlen] at hoff ⊢
    exact assembleStage_fallback _ _ _ _ _ _ _ _ _ hoff

/-- Witness for C7 at a concrete run with no verification key: the verified
set is the discovered set and the counter matches its size. -/
theorem verification_fallback_witness :
    (runPipeline ⟨true, true, false⟩ ⟨"plumber", "Michigan", 1, 1, true⟩
        (fun q => if q = "plumber Detroit MI" then
          some [⟨"Acme", "1 St", "", "5551234", "https://acme.com", 5, 50,
            "plumber Detroit MI"⟩] else some [])
        (fun _ => ["a@acme.com", "b@acme.com"]) (fun _ => .httpError)
        (fun _ _ => .httpError) (fun _ => .thrown)).verifiedEmails =
      (runPipeline ⟨true, true, false⟩ ⟨"plumber", "Michigan", 1, 1, true⟩
        (fun q => if q = "plumber Detroit MI" then
          some [⟨"Acme", "1 St", "", "5551234", "https://acme.com", 5, 50,
            "plumber Detroit MI"⟩] else some [])
        (fun _ => ["a@acme.com", "b@acme.com"]) (fun _ => .httpError)
        (fun _ _ => .httpError) (fun _ => .thrown)).allEmails ∧
    (runPipeline ⟨true, true, false⟩ ⟨"plumber", "Michigan", 1, 1, true⟩
        (fun q => if q = "plumber Detroit MI" then
          some [⟨"Acme", "1 St", "", "5551234", "https://acme.com", 5, 50,
            "plumber Detroit MI"⟩] else some [])
        (fun _ => ["a@acme.com", "b@acme.com"]) (fun _ => .httpError)
        (fun _ _ => .httpError) (fun _ => .thrown)).stats.emailsVerified =
      (runPipeline ⟨true, true, false⟩ ⟨"plumber", "Michigan", 1, 1, true⟩
        (fun q => if q = "plumber Detroit MI" then
          some [⟨"Acme", "1 St", "", "5551234", "https://acme.com", 5, 50,
            "plumber Detroit MI"⟩] else some [])
        (fun _ => ["a@acme.com", "b@acme.com"]) (fun _ => .httpError)
        (fun _ _ => .httpError) (fun _ => .thrown)).allEmails.length := by
  have h := verification_fallback ⟨true, true, false⟩ ⟨"plumber", "Michigan", 1, 1, true⟩
    (fun q => if q = "plumber Detroit MI" then
      some [⟨"Acme", "1 St", "", "5551234", "https://acme.com", 5, 50,
        "plumber Detroit MI"⟩] else some [])
    (fun _ => ["a@acme.com", "b@acme.com"]) (fun _ => .httpError)
    (fun _ _ => .httpError) (fun _ => .thrown) rfl (Or.inl rfl)
  exact ⟨h.1, h.2.1⟩

/-- C9 (code bug): the client sends `limitOnePerDomain = true`, but the
route's zod schema strips the key, so the pipeline reads the flag as falsy:
for a business with two verified emails the run started through the route
produces two CSV rows, whereas the same run with the flag actually forwarded
produces exactly one. -/
theorem route_drops_limit_flag :
    ((runPipeline ⟨true, true, true⟩
        (parsedJobInput ⟨"plumber", "Michigan", 1, 1, true⟩)
        (fun q => if q = "plumber Detroit MI" then
          some [⟨"Acme", "1 St", "", "5551234", "https://acme.com", 5, 50,
            "plumber Detroit MI"⟩] else some [])
        (fun _ => ["a@acme.com", "b@acme.com"]) (fun _ => .httpError)
        (fun _ _ => .httpError)
        (fun _ => .response 200 (some ⟨"deliverable", ""⟩))).rows.getD []).length = 2 ∧
    (parsedJobInput ⟨"plumber", "Michigan", 1, 1, true⟩).limitOnePerDomain = false ∧
    ((runPipeline ⟨true, true, true⟩
        ⟨"plumber", "Michigan", 1, 1, true⟩
        (fun q => if q = "plumber Detroit MI" then
          some [⟨"Acme", "1 St", "", "5551234", "https://acme.com", 5, 50,
            "plumber Detroit MI"⟩] else some [])
        (fun _ => ["a@acme.com", "b@acme.com"]) (fun _ => .httpError)
        (fun _ _ => .httpError)
        (fun _ => .response 200 (some ⟨"deliverable", ""⟩))).rows.getD []).length = 1 := by
  exact ⟨by decide, by decide, by decide⟩

end SignalLayer
